import Mathlib

/-!
Verification of the separable image resampling engine (ImageSampler.cpp).

The development shallowly embeds the C++ source into Lean:

* machine floats are idealized as exact rationals (`ℚ`); the transcendental
  libm routines the kernels call (`expf`, `sinf`, `sqrtf`, the constant pi,
  and the vector normalize from the math library) are not algebraically
  relevant to any claim, so they are threaded through as an explicit
  parameter record `LibmParams`;
* the C++ cast `int32_t(x)` on a float is truncation toward zero, embedded
  as `truncToZero`;
* `std::vector` push_back loops become `List` computations; the per-target
  "append then renormalize the last count entries" pattern of
  `generateMadProgram` is embedded as a per-target list (`rawForTarget` /
  `madForTarget`) concatenated over all targets, which is exactly the
  contents of the C++ result vector;
* the image buffer type (external to the core, declared in the headers) is
  modelled from the spec as a list of rows of samples;
* fatal preconditions (`PANIC_PRECONDITION` / `ASSERT_PRECONDITION`)
  become `Except ResampleError`.
-/

namespace ImageSamplerModel

/-- Record of the libm routines and constants used by the kernel
definitions, treated as uninterpreted parameters of the embedding. -/
structure LibmParams where
  expf : ℚ → ℚ
  sinf : ℚ → ℚ
  sqrtf : ℚ → ℚ
  pif : ℚ
  normalize3 : ℚ → ℚ → ℚ → ℚ × ℚ × ℚ

/-- Embedding of struct FilterFn: a pointwise weight function, a bounding
radius, and the external-sample rejection flag (defaulting to true, as in
the C++ member initializer). -/
structure FilterFn where
  fn : ℚ → ℚ
  boundingRadius : ℚ := 1
  rejectExternalSamples : Bool := true

/-- Embedding of the Box kernel from the source. -/
def Box : FilterFn :=
  { fn := fun t => if t ≤ 1/2 then 1 else 0
    boundingRadius := 1 }

/-- Embedding of the Nearest kernel: the Box weight function with bounding
radius 0 (aggregate init `Nearest { Box.fn, 0.0f }`; the rejection flag
keeps its default true). -/
def Nearest : FilterFn :=
  { fn := Box.fn
    boundingRadius := 0 }

/-- Embedding of the Gaussian kernel; `expf` and the scale constant
`1/sqrtf(0.5*pi)` go through the libm parameters. -/
def Gaussian (P : LibmParams) : FilterFn :=
  { fn := fun t =>
      if 2 ≤ t then 0
      else P.expf (-2 * t * t) * (1 / P.sqrtf (1/2 * P.pif))
    boundingRadius := 2 }

/-- Embedding of the Hermite kernel. -/
def Hermite : FilterFn :=
  { fn := fun t => if 1 ≤ t then 0 else 2*t*t*t - 3*t*t + 1
    boundingRadius := 1 }

/-- Embedding of the Mitchell kernel (Mitchell-Netravali with B = C = 1/3),
with the piecewise cubic coefficients computed exactly as in the source. -/
def Mitchell : FilterFn :=
  { fn := fun t =>
      let B : ℚ := 1/3
      let C : ℚ := 1/3
      let P0 : ℚ := (6 - 2*B) / 6
      let P1 : ℚ := 0
      let P2 : ℚ := (-18 + 12*B + 6*C) / 6
      let P3 : ℚ := (12 - 9*B - 6*C) / 6
      let Q0 : ℚ := (8*B + 24*C) / 6
      let Q1 : ℚ := (-12*B - 48*C) / 6
      let Q2 : ℚ := (6*B + 30*C) / 6
      let Q3 : ℚ := (-1*B - 6*C) / 6
      if 2 ≤ t then 0
      else if 1 ≤ t then Q0 + Q1*t + Q2*t*t + Q3*t*t*t
      else P0 + P1*t + P2*t*t + P3*t*t*t
    boundingRadius := 2 }

/-- Embedding of the sinc helper with its singularity guard at 1e-5. -/
def sinc (P : LibmParams) (t : ℚ) : ℚ :=
  if t ≤ 1/100000 then 1 else P.sinf (P.pif * t) / (P.pif * t)

/-- Embedding of the Lanczos kernel. -/
def Lanczos (P : LibmParams) : FilterFn :=
  { fn := fun t => if 1 ≤ t then 0 else sinc P t * sinc P t
    boundingRadius := 1 }

/-- Embedding of struct MadInstruction: target index (uint32_t, embedded as
a natural number), signed source index (int32_t, embedded as an integer),
and a weight. -/
structure MadInstruction where
  targetIndex : ℕ
  sourceIndex : ℤ
  weight : ℚ
deriving DecidableEq

/-- Truncation toward zero, the semantics of the C++ cast int32_t(x) on a
nonnegative-or-negative float value. -/
def truncToZero (x : ℚ) : ℤ := if 0 ≤ x then ⌊x⌋ else ⌈x⌉

/-- Closed integer interval [lo, hi] as a list, matching the C++ loop
`for (isource = lo; isource <= hi; ++isource)`. -/
def intRange (lo hi : ℤ) : List ℤ :=
  (List.range (hi + 1 - lo).toNat).map (fun (k : ℕ) => lo + (k : ℤ))

/-- Local fnsource of generateMadProgram: the scaled source sample count
`float(nsource) * (right - left)`. -/
def fnsourceOf (S : ℕ) (l r : ℚ) : ℚ := (S : ℚ) * (r - l)

/-- Local domainScale of generateMadProgram:
`(minifying ? ntarget : fnsource) / radiusMultiplier` where
`minifying = float(ntarget) < fnsource`. -/
def domainScaleOf (T S : ℕ) (l r rm : ℚ) : ℚ :=
  (if (T : ℚ) < fnsourceOf S l r then (T : ℚ) else fnsourceOf S l r) / rm

/-- Local filterBounds of generateMadProgram:
`domainScale * abs(filter.boundingRadius)`. -/
def filterBoundsOf (T S : ℕ) (l r : ℚ) (K : FilterFn) (rm : ℚ) : ℚ :=
  domainScaleOf T S l r rm * |K.boundingRadius|

/-- Center of target pixel i: the loop variable xtarget starts at
`dtarget/2` and is advanced by `dtarget = 1/ntarget` per iteration (the
float accumulation is idealized as exact). -/
def xtargetOf (T : ℕ) (i : ℕ) : ℚ := 1 / (T : ℚ) / 2 + (i : ℚ) * (1 / (T : ℚ))

/-- Sub-range-normalized coordinate of source sample i:
`(((isource + 0.5f) / nsource) - left) / (right - left)`. -/
def xsourceOf (S : ℕ) (l r : ℚ) (isource : ℤ) : ℚ :=
  (((isource : ℚ) + 1/2) / (S : ℚ) - l) / (r - l)

/-- Lower end of the candidate scan for target i:
`int32_t((xtarget - filterBounds) * nsource)` (a truncating cast). -/
def sourceLower (T S : ℕ) (l r : ℚ) (K : FilterFn) (rm : ℚ) (i : ℕ) : ℤ :=
  truncToZero ((xtargetOf T i - filterBoundsOf T S l r K rm) * (S : ℚ))

/-- Upper end of the candidate scan for target i:
`int32_t(ceilf((xtarget + filterBounds) * nsource))`. -/
def sourceUpper (T S : ℕ) (l r : ℚ) (K : FilterFn) (rm : ℚ) (i : ℕ) : ℤ :=
  ⌈(xtargetOf T i + filterBoundsOf T S l r K rm) * (S : ℚ)⌉

/-- Candidate source indices scanned for target i by generateMadProgram. -/
def sourceScan (T S : ℕ) (l r : ℚ) (K : FilterFn) (rm : ℚ) (i : ℕ) : List ℤ :=
  intRange (sourceLower T S l r K rm i) (sourceUpper T S l r K rm i)

/-- Body of the inner loop of generateMadProgram for one candidate source
index: rejection of external samples, kernel evaluation, and the
nonzero-weight test guarding the push_back. -/
def madCandidate (T S : ℕ) (l r : ℚ) (K : FilterFn) (rm : ℚ) (i : ℕ)
    (isource : ℤ) : Option MadInstruction :=
  let xsource := xsourceOf S l r isource
  let outsideImage := isource < 0 ∨ (S : ℤ) ≤ isource
  let outsideRange := xsource < 0 ∨ 1 ≤ xsource
  if K.rejectExternalSamples ∧ (outsideImage ∨ outsideRange) then none
  else
    let t := domainScaleOf T S l r rm * |xsource - xtargetOf T i|
    let w := K.fn t
    if w = 0 then none else some ⟨i, isource, w⟩

/-- Instructions appended for target i before renormalization, in scan
order; these are exactly the last `count` entries of the C++ result vector
when the loop body for target i finishes. -/
def rawForTarget (T S : ℕ) (l r : ℚ) (K : FilterFn) (rm : ℚ) (i : ℕ) :
    List MadInstruction :=
  (sourceScan T S l r K rm i).filterMap (madCandidate T S l r K rm i)

/-- Renormalization step of generateMadProgram for one target: when the
accumulated sum of the appended weights is nonzero every one of them is
divided by it, otherwise the entries are left as appended. -/
def madNormalize (raw : List MadInstruction) : List MadInstruction :=
  let s := (raw.map (fun m => m.weight)).sum
  if s = 0 then raw else raw.map (fun m => { m with weight := m.weight / s })

/-- Instructions for target i after the per-target renormalization step. -/
def madForTarget (T S : ℕ) (l r : ℚ) (K : FilterFn) (rm : ℚ) (i : ℕ) :
    List MadInstruction :=
  madNormalize (rawForTarget T S l r K rm i)

/-- Embedding of generateMadProgram: the concatenation over all targets of
the per-target instruction lists, which is the final contents of the C++
result vector. -/
def generateMadProgram (T S : ℕ) (l r : ℚ) (K : FilterFn) (rm : ℚ) :
    List MadInstruction :=
  (List.range T).flatMap (madForTarget T S l r K rm)

/-- Embedding of expandMadProgram: identity for a single channel, otherwise
each instruction is replicated across channels with both indices scaled and
offset. -/
def expandMadProgram (nchannels : ℕ) (p : List MadInstruction) :
    List MadInstruction :=
  if nchannels = 1 then p
  else p.flatMap (fun m =>
    (List.range nchannels).map (fun j =>
      ⟨m.targetIndex * nchannels + j, m.sourceIndex * (nchannels : ℤ) + (j : ℤ), m.weight⟩))

/-- Enumeration of the filter kinds dispatched by createFilterFunction.
Modelled from the spec and the switch in the source: the enum itself is
declared in a header outside the provided sources. -/
inductive Filter where
  | DEFAULT
  | BOX
  | NEAREST
  | HERMITE
  | GAUSSIAN_SCALARS
  | GAUSSIAN_NORMALS
  | MINIMUM
  | MITCHELL
  | LANCZOS
deriving DecidableEq

/-- Boundary modes of the sampler configuration. Modelled from the spec:
only the exclude mode is implemented; the other tags exist so that the
unimplemented-mode precondition is observable. -/
inductive Boundary where
  | EXCLUDE
  | CLAMP
  | WRAP
deriving DecidableEq

/-- Error outcomes of the fatal precondition macros in the source. -/
inductive ResampleError where
  | unresolvedFilter
  | notImplemented
  | badChannelCount
deriving DecidableEq

/-- Embedding of createFilterFunction: the switch over filter kinds; the
DEFAULT case is the fatal unresolved-filter precondition. -/
def createFilterFunction (P : LibmParams) : Filter → Except ResampleError FilterFn
  | .MINIMUM => .ok Box
  | .BOX => .ok Box
  | .NEAREST => .ok Nearest
  | .HERMITE => .ok Hermite
  | .MITCHELL => .ok Mitchell
  | .LANCZOS => .ok (Lanczos P)
  | .GAUSSIAN_NORMALS => .ok (Gaussian P)
  | .GAUSSIAN_SCALARS => .ok (Gaussian P)
  | .DEFAULT => .error .unresolvedFilter

/-- Modelled from the spec: the external image buffer type LinearImage,
an owning buffer of row-major float samples with width, height and channel
count; each entry of rows is one row of width times channels samples. -/
structure LinearImage where
  width : ℕ
  height : ℕ
  channels : ℕ
  rows : List (List ℚ)
deriving DecidableEq

/-- Largest finite float value, the prefill of the minimum-reduction
executor (std numeric_limits float max). -/
def floatMax : ℚ := (2 ^ 24 - 1) * 2 ^ 104

/-- Read from a row buffer at a signed index, the executor expression
`sourceRow[mad.sourceIndex]`; out-of-range reads (which the generator is
proved never to produce for the built-in kernels) are totalized to 0. -/
def getIdx (row : List ℚ) (i : ℤ) : ℚ :=
  if 0 ≤ i then row.getD i.toNat 0 else 0

/-- Weighted-sum executor over one row: starting from a zero-initialized
target row of n samples, each instruction performs
`target[targetIndex] += source[sourceIndex] * weight`. -/
def execRowAdd (p : List MadInstruction) (n : ℕ) (src : List ℚ) : List ℚ :=
  p.foldl
    (fun buf m =>
      buf.set m.targetIndex (buf.getD m.targetIndex 0 + getIdx src m.sourceIndex * m.weight))
    (List.replicate n 0)

/-- Minimum-reduction executor over one row: starting from a target row
prefilled with floatMax, each instruction performs
`target[targetIndex] = min(source[sourceIndex], target[targetIndex])`,
never touching the weight. -/
def execRowMin (p : List MadInstruction) (n : ℕ) (src : List ℚ) : List ℚ :=
  p.foldl
    (fun buf m =>
      buf.set m.targetIndex (min (getIdx src m.sourceIndex) (buf.getD m.targetIndex 0)))
    (List.replicate n floatMax)

/-- Definition following the words of the spec, for comparison with the
executor of the code: the minimum-reduction pass as the spec states it,
with the target row pre-filled with plus infinity (the top element of
WithTop ℚ) rather than the largest finite float. -/
def specMinRow (p : List MadInstruction) (n : ℕ) (src : List ℚ) :
    List (WithTop ℚ) :=
  p.foldl
    (fun buf m =>
      buf.set m.targetIndex
        (min ((getIdx src m.sourceIndex : ℚ) : WithTop ℚ) (buf.getD m.targetIndex ⊤)))
    (List.replicate n ⊤)

/-- Embedding of the normalize post-pass over one row: every 3-sample pixel
is replaced by its unit-length rescaling (the math library normalize,
threaded through LibmParams). -/
def normalizeRow (P : LibmParams) (w : ℕ) (row : List ℚ) : List ℚ :=
  (List.range w).flatMap (fun x =>
    let v := P.normalize3 (row.getD (3 * x) 0) (row.getD (3 * x + 1) 0) (row.getD (3 * x + 2) 0)
    [v.1, v.2.1, v.2.2])

/-- Embedding of the normalize function: fatal precondition unless the
image has exactly 3 channels, otherwise pixel-wise unit-length rescaling. -/
def normalizeImage (P : LibmParams) (img : LinearImage) :
    Except ResampleError LinearImage :=
  if img.channels = 3 then
    .ok ⟨img.width, img.height, 3, img.rows.map (normalizeRow P img.width)⟩
  else .error .badChannelCount

/-- Embedding of resampleImage1D: resolve a DEFAULT filter (Mitchell when
magnifying, Lanczos otherwise), build the kernel, generate and expand the
MAD program, then execute it per row in minimum or weighted-sum mode, with
the normals post-pass when requested. -/
def resampleImage1D (P : LibmParams) (source : LinearImage) (twidth : ℕ)
    (filter : Filter) (l r rm : ℚ) : Except ResampleError LinearImage :=
  let f := if filter = .DEFAULT
    then (if source.width < twidth then Filter.MITCHELL else Filter.LANCZOS)
    else filter
  match createFilterFunction P f with
  | .error e => .error e
  | .ok hfn =>
    let prog := expandMadProgram source.channels
      (generateMadProgram twidth source.width l r hfn rm)
    let n := twidth * source.channels
    if f = .MINIMUM then
      .ok ⟨twidth, source.height, source.channels, source.rows.map (execRowMin prog n)⟩
    else
      let res : LinearImage :=
        ⟨twidth, source.height, source.channels, source.rows.map (execRowAdd prog n)⟩
      if f = .GAUSSIAN_NORMALS then normalizeImage P res else .ok res

/-- Pixel at row y, column x of an image (channels consecutive samples). -/
def pixelAt (img : LinearImage) (y x : ℕ) : List ℚ :=
  ((img.rows.getD y []).drop (img.channels * x)).take img.channels

/-- Modelled from the spec: the external transpose collaborator swaps width
and height and reorders the samples accordingly. -/
def transposeImage (img : LinearImage) : LinearImage :=
  ⟨img.height, img.width, img.channels,
    (List.range img.width).map (fun x =>
      (List.range img.height).flatMap (fun y => pixelAt img y x))⟩

/-- Embedding of the sampler configuration consumed by resampleImage.
Modelled from the spec for the fields whose declaration lives in a header
outside the provided sources. -/
structure ImageSampler where
  horizontalFilter : Filter
  verticalFilter : Filter
  filterRadiusMultiplier : ℚ
  left : ℚ
  top : ℚ
  right : ℚ
  bottom : ℚ
  east : Boundary
  north : Boundary
  west : Boundary
  south : Boundary

/-- Embedding of resampleImage: the boundary-mode precondition first, then
a horizontal 1D pass, transpose, vertical 1D pass, transpose. -/
def resampleImage (P : LibmParams) (source : LinearImage) (width height : ℕ)
    (sampler : ImageSampler) : Except ResampleError LinearImage :=
  if sampler.east = Boundary.EXCLUDE ∧ sampler.north = Boundary.EXCLUDE ∧
      sampler.west = Boundary.EXCLUDE ∧ sampler.south = Boundary.EXCLUDE then
    match resampleImage1D P source width sampler.horizontalFilter
        sampler.left sampler.right sampler.filterRadiusMultiplier with
    | .error e => .error e
    | .ok h1 =>
      match resampleImage1D P (transposeImage h1) height sampler.verticalFilter
          sampler.top sampler.bottom sampler.filterRadiusMultiplier with
      | .error e => .error e
      | .ok h2 => .ok (transposeImage h2)
  else .error .notImplemented

/-- Concrete instantiation of the libm parameters used by witnesses; the
claims proved generically never depend on these values. -/
def dummyLibm : LibmParams :=
  ⟨fun _ => 0, fun _ => 0, fun _ => 0, 0, fun a b c => (a, b, c)⟩

/-- Kernel with a positive center weight and negative side lobes, a legal
argument of the generator (its signature accepts any FilterFn, and the
registry kernel Mitchell likewise takes negative values); it exhibits
per-target weight cancellation. -/
def cancelKernel : FilterFn :=
  ⟨fun t => if t = 0 then 2 else if t < 1 then -1 else 0, 1, true⟩

/-- Membership in the closed integer interval list. -/
theorem mem_intRange {lo hi k : ℤ} : k ∈ intRange lo hi ↔ lo ≤ k ∧ k ≤ hi := by
  constructor
  · intro h
    obtain ⟨j, hj, rfl⟩ := List.mem_map.1 h
    have := List.mem_range.1 hj
    omega
  · rintro ⟨h1, h2⟩
    exact List.mem_map.2 ⟨(k - lo).toNat, List.mem_range.2 (by omega), by omega⟩

/-- Truncation toward zero agrees with the floor on nonnegative inputs. -/
theorem truncToZero_eq_floor {x : ℚ} (hx : 0 ≤ x) : truncToZero x = ⌊x⌋ := by
  simp [truncToZero, hx]

/-- Evaluation rule for the floor of a concrete rational. -/
theorem rfloor_eq {x : ℚ} {z : ℤ} (h1 : (z : ℚ) ≤ x) (h2 : x < (z : ℚ) + 1) :
    ⌊x⌋ = z := by
  rw [Int.floor_eq_iff]
  · exact ⟨h1, h2⟩


/-- Evaluation rule for the ceiling of a concrete rational. -/
theorem rceil_eq {x : ℚ} {z : ℤ} (h1 : (z : ℚ) - 1 < x) (h2 : x ≤ (z : ℚ)) :
    ⌈x⌉ = z := by
  rw [Int.ceil_eq_iff]
  · exact ⟨h1, h2⟩


/-- Evaluation rule for truncation toward zero of a nonnegative rational. -/
theorem truncToZero_nonneg_eq {x : ℚ} {z : ℤ} (hx : 0 ≤ x) (h1 : (z : ℚ) ≤ x)
    (h2 : x < (z : ℚ) + 1) : truncToZero x = z := by
  rw [truncToZero_eq_floor hx]
  exact rfloor_eq h1 h2

/-- Evaluation rule for truncation toward zero of a negative rational. -/
theorem truncToZero_neg_eq {x : ℚ} {z : ℤ} (hx : x < 0) (h1 : (z : ℚ) - 1 < x)
    (h2 : x ≤ (z : ℚ)) : truncToZero x = z := by
  rw [truncToZero, if_neg (by exact not_le.2 hx)]
  exact rceil_eq h1 h2

/-- Facts about every instruction appended for target i before
renormalization: its target index is i, its weight is a nonzero kernel
value, and under the rejection flag its source index is inside the image. -/
theorem mem_rawForTarget {T S : ℕ} {l r rm : ℚ} {K : FilterFn} {i : ℕ}
    {m : MadInstruction} (h : m ∈ rawForTarget T S l r K rm i) :
    m.targetIndex = i ∧ m.weight ≠ 0 ∧ (∃ x, m.weight = K.fn x) ∧
      (K.rejectExternalSamples = true → 0 ≤ m.sourceIndex ∧ m.sourceIndex < (S : ℤ)) := by
  obtain ⟨a, ha, hc⟩ := List.mem_filterMap.1 h
  revert hc
  simp only [madCandidate]
  split_ifs with h1 h2
  · intro hc
    exact absurd hc (by simp)
  · intro hc
    exact absurd hc (by simp)
  · intro hc
    obtain rfl := Option.some.inj hc
    refine ⟨rfl, h2, ⟨_, rfl⟩, ?_⟩
    intro hrej
    rw [hrej] at h1
    push_neg at h1
    exact (h1 rfl).1

/-- Every instruction produced for target i carries target index i. -/
theorem mem_madForTarget_targetIndex {T S : ℕ} {l r rm : ℚ} {K : FilterFn}
    {i : ℕ} {m : MadInstruction} (h : m ∈ madForTarget T S l r K rm i) :
    m.targetIndex = i := by
  simp only [madForTarget, madNormalize] at h
  split_ifs at h
  · exact (mem_rawForTarget h).1
  · obtain ⟨m', hm', rfl⟩ := List.mem_map.1 h
    exact (mem_rawForTarget hm').1

/-- Dividing every weight of a list of instructions by s divides the sum
of the weights by s. -/
theorem sum_weights_map_div (L : List MadInstruction) (s : ℚ) :
    ((L.map (fun m => { m with weight := m.weight / s })).map (fun m => m.weight)).sum
      = ((L.map (fun m => m.weight)).sum) / s := by
  induction L with
  | nil => simp
  | cons a t ih =>
    simp only [List.map_cons, List.sum_cons, ih]
    rw [div_add_div_same]

/-- After the renormalization step the weights of one target sum to 0 or
exactly 1. -/
theorem madForTarget_sum (T S : ℕ) (l r : ℚ) (K : FilterFn) (rm : ℚ) (i : ℕ) :
    ((madForTarget T S l r K rm i).map (fun m => m.weight)).sum = 0 ∨
    ((madForTarget T S l r K rm i).map (fun m => m.weight)).sum = 1 := by
  simp only [madForTarget, madNormalize]
  split_ifs with hs
  · exact Or.inl hs
  · right
    rw [sum_weights_map_div]
    exact div_self hs

/-- Filtering a flatMap over an initial range by target index t picks out
exactly the t-th piece, provided each piece carries its own index. -/
theorem filter_flatMap_range {T t : ℕ} (f : ℕ → List MadInstruction)
    (hf : ∀ i, ∀ m ∈ f i, m.targetIndex = i) :
    ((List.range T).flatMap f).filter (fun m => m.targetIndex = t)
      = if t < T then f t else [] := by
  induction T with
  | zero => simp
  | succ n ih =>
    rw [List.range_succ, List.flatMap_append, List.filter_append, ih]
    simp only [List.flatMap_cons, List.flatMap_nil, List.append_nil]
    have hn : (f n).filter (fun m => m.targetIndex = t) = if t = n then f t else [] := by
      split_ifs with h
      · subst h
        exact List.filter_eq_self.2 (fun m hm => by simp [hf t m hm])
      · exact List.filter_eq_nil_iff.2
          (fun m hm => by simp only [hf n m hm, decide_eq_true_eq]; omega)
    rw [hn]
    rcases Nat.lt_trichotomy t n with h1 | h1 | h1
    · rw [if_pos h1, if_neg (by omega), if_pos (by omega), List.append_nil]
    · rw [if_neg (by omega), if_pos (by omega), if_pos (by omega), List.nil_append]
    · rw [if_neg (by omega), if_neg (by omega), if_neg (by omega), List.nil_append]

/-- The instructions of a generated program carrying target index t are
exactly the renormalized per-target list for t. -/
theorem filter_generateMadProgram (T S : ℕ) (l r : ℚ) (K : FilterFn) (rm : ℚ)
    (t : ℕ) :
    (generateMadProgram T S l r K rm).filter (fun m => m.targetIndex = t)
      = if t < T then madForTarget T S l r K rm t else [] := by
  rw [generateMadProgram]
  exact filter_flatMap_range _ (fun i m hm => mem_madForTarget_targetIndex hm)

/-- Setting one in-range position of a row tabulated over an initial range
retabulates it with the new value at that position. -/
theorem map_range_set (n : ℕ) (F : ℕ → ℚ) (t : ℕ) (v : ℚ) :
    ((List.range n).map F).set t v
      = (List.range n).map (fun j => if t = j then v else F j) := by
  refine List.ext_getElem (by simp) ?_
  intro j h1 h2
  rw [List.getElem_set]
  by_cases h : t = j <;> simp [h]

/-- Reading an in-range position of a row tabulated over an initial range
recovers the tabulated value. -/
theorem getD_map_range (n : ℕ) (F : ℕ → ℚ) (t : ℕ) (ht : t < n) :
    ((List.range n).map F).getD t 0 = F t := by
  rw [List.getD_eq_getElem _ _ (by simpa using ht)]
  simp

/-- Pointwise characterization of the minimum-reduction executor: position
j of the output row is the minimum, starting from floatMax, of the source
samples read by the instructions targeting j; the weights play no role. -/
theorem execRowMin_char (p : List MadInstruction) (n : ℕ) (src : List ℚ) :
    execRowMin p n src = (List.range n).map (fun j =>
      ((p.filter (fun m => m.targetIndex = j)).map
        (fun m => getIdx src m.sourceIndex)).foldl min floatMax) := by
  induction p using List.reverseRecOn with
  | nil =>
    simp only [execRowMin, List.foldl_nil, List.filter_nil, List.map_nil]
    refine List.ext_getElem (by simp) ?_
    intro j h1 h2
    simp
  | append_singleton p m ih =>
    have step : execRowMin (p ++ [m]) n src
        = (execRowMin p n src).set m.targetIndex
            (min (getIdx src m.sourceIndex) ((execRowMin p n src).getD m.targetIndex 0)) := by
      simp only [execRowMin, List.foldl_append, List.foldl_cons, List.foldl_nil]
    rw [step, ih]
    have hG : ∀ j ∈ List.range n,
        ((((p ++ [m]).filter (fun q => q.targetIndex = j)).map
          (fun q => getIdx src q.sourceIndex)).foldl min floatMax)
        = if m.targetIndex = j
          then min (getIdx src m.sourceIndex)
            (((p.filter (fun q => q.targetIndex = j)).map
              (fun q => getIdx src q.sourceIndex)).foldl min floatMax)
          else ((p.filter (fun q => q.targetIndex = j)).map
            (fun q => getIdx src q.sourceIndex)).foldl min floatMax := by
      intro j hj
      rw [List.filter_append]
      split_ifs with hm
      · have hf : [m].filter (fun q => q.targetIndex = j) = [m] := by
          simp [hm]
        rw [hf, List.map_append, List.foldl_append]
        simp only [List.map_cons, List.map_nil, List.foldl_cons, List.foldl_nil]
        exact min_comm _ _
      · have hf : [m].filter (fun q => q.targetIndex = j) = [] := by
          simp [hm]
        rw [hf, List.append_nil]
    rw [List.map_congr_left hG]
    by_cases hmn : m.targetIndex < n
    · rw [getD_map_range _ _ _ hmn, map_range_set]
      refine List.map_congr_left ?_
      intro j hj
      by_cases h : m.targetIndex = j
      · rw [if_pos h, if_pos h, h]
      · rw [if_neg h, if_neg h]
    · rw [List.set_eq_of_length_le (by simp [Nat.le_of_not_lt hmn])]
      refine List.map_congr_left ?_
      intro j hj
      have hj' := List.mem_range.1 hj
      have hne : ¬ (m.targetIndex = j) := by omega
      rw [if_neg hne]

/-- Every kernel the dispatcher returns keeps the default rejection flag:
none of the registry initializers overrides it. -/
theorem createFilterFunction_reject {P : LibmParams} {f : Filter} {K : FilterFn}
    (h : createFilterFunction P f = .ok K) : K.rejectExternalSamples = true := by
  cases f <;> simp only [createFilterFunction, Except.ok.injEq, reduceCtorEq] at h <;>
    exact h ▸ rfl

/-- The only error a 1D resample pass can produce is the bad-channel-count
precondition of the normals post-pass: the filter resolution step never
hands the unresolved kind to the kernel dispatcher. -/
theorem resampleImage1D_error_badChannel {P : LibmParams} {src : LinearImage}
    {tw : ℕ} {f : Filter} {l r rm : ℚ} {e : ResampleError}
    (h : resampleImage1D P src tw f l r rm = .error e) : e = .badChannelCount := by
  revert h
  cases f <;> by_cases hm : src.width < tw <;>
    simp only [resampleImage1D, createFilterFunction, normalizeImage, hm,
      if_true, if_false, reduceCtorEq, ite_true, ite_false, reduceIte] <;>
    intro h <;> (try split_ifs at h) <;> simp_all

/-- Shape of a successful 1D resample pass: the requested target width, the
source height and the source channel count. -/
theorem resampleImage1D_shape {P : LibmParams} {src : LinearImage} {tw : ℕ}
    {f : Filter} {l r rm : ℚ} {out : LinearImage}
    (h : resampleImage1D P src tw f l r rm = .ok out) :
    out.width = tw ∧ out.height = src.height ∧ out.channels = src.channels := by
  revert h
  cases f <;> by_cases hm : src.width < tw <;>
    simp only [resampleImage1D, createFilterFunction, normalizeImage, hm,
      if_true, if_false, reduceCtorEq, ite_true, ite_false, reduceIte] <;>
    intro h <;> (try split_ifs at h) <;>
    simp only [Except.ok.injEq, reduceCtorEq] at h <;>
    (try subst h) <;> simp_all

/-- A 1D resample pass succeeds whenever the normals post-pass, if
requested, is applied to a 3-channel image. -/
theorem resampleImage1D_ok_of (P : LibmParams) (src : LinearImage) (tw : ℕ)
    (f : Filter) (l r rm : ℚ)
    (hc : f = Filter.GAUSSIAN_NORMALS → src.channels = 3) :
    ∃ out, resampleImage1D P src tw f l r rm = .ok out := by
  cases f <;> by_cases hm : src.width < tw <;>
    simp only [resampleImage1D, createFilterFunction, normalizeImage, hm,
      if_true, if_false, reduceCtorEq, ite_true, ite_false, reduceIte] <;>
    simp_all

/-- Source-index bounds for the instructions of one target, under the
external-sample rejection flag. -/
theorem mem_madForTarget_bounds {T S : ℕ} {l r rm : ℚ} {K : FilterFn} {i : ℕ}
    {m : MadInstruction} (h : m ∈ madForTarget T S l r K rm i)
    (hrej : K.rejectExternalSamples = true) :
    0 ≤ m.sourceIndex ∧ m.sourceIndex < (S : ℤ) := by
  simp only [madForTarget, madNormalize] at h
  split_ifs at h
  · exact (mem_rawForTarget h).2.2.2 hrej
  · obtain ⟨m', hm', rfl⟩ := List.mem_map.1 h
    exact (mem_rawForTarget hm').2.2.2 hrej

/-- Concrete evaluation of the generator: one source sample to one target
sample over the full range with the Box kernel yields the single identity
instruction. -/
theorem generate_box11 : generateMadProgram 1 1 0 1 Box 1 = [⟨0, 0, 1⟩] := by
  have hlo : sourceLower 1 1 0 1 Box 1 0 = 0 := by
    have e : (xtargetOf 1 0 - filterBoundsOf 1 1 0 1 Box 1) * ((1 : ℕ) : ℚ) = -1/2 := by
      norm_num [xtargetOf, filterBoundsOf, domainScaleOf, fnsourceOf, Box]
    rw [sourceLower, e]
    exact truncToZero_neg_eq (x := -1/2) (z := 0) (by norm_num) (by norm_num) (by norm_num)
  have hhi : sourceUpper 1 1 0 1 Box 1 0 = 2 := by
    have e : (xtargetOf 1 0 + filterBoundsOf 1 1 0 1 Box 1) * ((1 : ℕ) : ℚ) = 3/2 := by
      norm_num [xtargetOf, filterBoundsOf, domainScaleOf, fnsourceOf, Box]
    rw [sourceUpper, e]
    exact rceil_eq (x := 3/2) (z := 2) (by norm_num) (by norm_num)
  have hscan : sourceScan 1 1 0 1 Box 1 0 = [0, 1, 2] := by
    rw [sourceScan, hlo, hhi]
    decide
  have hraw : rawForTarget 1 1 0 1 Box 1 0 = [⟨0, 0, 1⟩] := by
    rw [rawForTarget, hscan]
    simp only [List.filterMap_cons, madCandidate]
    norm_num [xsourceOf, domainScaleOf, fnsourceOf, xtargetOf, Box, abs_lt, abs_le,
      abs_eq_zero]
  have hr1 : List.range 1 = [0] := by decide
  rw [generateMadProgram, hr1]
  simp only [List.flatMap_cons, List.flatMap_nil, List.append_nil]
  rw [madForTarget, hraw]
  simp only [madNormalize, List.map_cons, List.map_nil, List.sum_cons, List.sum_nil]
  norm_num


theorem nearest_domainScale (N : ℕ) : domainScaleOf N N 0 1 1 = (N : ℚ) := by
  simp [domainScaleOf, fnsourceOf]

theorem nearest_filterBounds (N : ℕ) : filterBoundsOf N N 0 1 Nearest 1 = 0 := by
  simp [filterBoundsOf, Nearest]

theorem nearest_xtarget_mul (N : ℕ) (hN : 0 < N) (i : ℕ) :
    xtargetOf N i * (N : ℚ) = (i : ℚ) + 1/2 := by
  have hNQ : ((N : ℚ)) ≠ 0 := Nat.cast_ne_zero.2 (Nat.pos_iff_ne_zero.1 hN)
  field_simp [xtargetOf]
  ring

theorem nearest_sourceLower (N : ℕ) (hN : 0 < N) (i : ℕ) :
    sourceLower N N 0 1 Nearest 1 i = (i : ℤ) := by
  rw [sourceLower, nearest_filterBounds, sub_zero, nearest_xtarget_mul N hN]
  refine truncToZero_nonneg_eq (by positivity) (by push_cast; norm_num) (by push_cast; norm_num)

theorem nearest_sourceUpper (N : ℕ) (hN : 0 < N) (i : ℕ) :
    sourceUpper N N 0 1 Nearest 1 i = (i : ℤ) + 1 := by
  rw [sourceUpper, nearest_filterBounds, add_zero, nearest_xtarget_mul N hN]
  refine rceil_eq (by push_cast; norm_num) (by push_cast; norm_num)

theorem nearest_sourceScan (N : ℕ) (hN : 0 < N) (i : ℕ) :
    sourceScan N N 0 1 Nearest 1 i = [(i : ℤ), (i : ℤ) + 1] := by
  rw [sourceScan, nearest_sourceLower N hN, nearest_sourceUpper N hN, intRange]
  have h2 : ((i : ℤ) + 1 + 1 - (i : ℤ)).toNat = 2 := by omega
  rw [h2]
  have hr : List.range 2 = [0, 1] := by decide
  rw [hr]
  simp


theorem nearest_xtarget_eq (N : ℕ) (hN : 0 < N) (i : ℕ) :
    xtargetOf N i = ((i : ℚ) + 1/2) / (N : ℚ) := by
  have hNQ : ((N : ℚ)) ≠ 0 := Nat.cast_ne_zero.2 (Nat.pos_iff_ne_zero.1 hN)
  rw [eq_div_iff hNQ]
  exact nearest_xtarget_mul N hN i

theorem nearest_xtarget_pos (N : ℕ) (hN : 0 < N) (i : ℕ) :
    0 < xtargetOf N i := by
  have hc : (0 : ℚ) < (N : ℚ) := by exact_mod_cast hN
  rw [nearest_xtarget_eq N hN i]
  positivity

theorem nearest_xtarget_lt_one (N : ℕ) (hN : 0 < N) (i : ℕ) (hi : i < N) :
    xtargetOf N i < 1 := by
  have hc : (0 : ℚ) < (N : ℚ) := by exact_mod_cast hN
  rw [nearest_xtarget_eq N hN i, div_lt_one hc]
  have h1 : (i : ℚ) + 1 ≤ (N : ℚ) := by exact_mod_cast hi
  linarith

theorem nearest_candidate_self (N : ℕ) (hN : 0 < N) (i : ℕ) (hi : i < N) :
    madCandidate N N 0 1 Nearest 1 i (i : ℤ) = some ⟨i, (i : ℤ), 1⟩ := by
  have hNQ : ((N : ℚ)) ≠ 0 := Nat.cast_ne_zero.2 (Nat.pos_iff_ne_zero.1 hN)
  have hxs : xsourceOf N 0 1 (i : ℤ) = xtargetOf N i := by
    field_simp [xsourceOf, xtargetOf]
    ring
  have hrej : ¬(Nearest.rejectExternalSamples = true ∧
      (((i : ℤ) < 0 ∨ (N : ℤ) ≤ (i : ℤ)) ∨
        (xtargetOf N i < 0 ∨ 1 ≤ xtargetOf N i))) := by
    rintro ⟨-, (h | h) | (h | h)⟩
    · omega
    · omega
    · exact absurd h (not_lt.2 (le_of_lt (nearest_xtarget_pos N hN i)))
    · exact absurd h (not_le.2 (nearest_xtarget_lt_one N hN i hi))
  have ht0 : domainScaleOf N N 0 1 1 * |xtargetOf N i - xtargetOf N i| = 0 := by
    simp
  have hfn : Nearest.fn 0 = 1 := by
    norm_num [Nearest, Box]
  simp only [madCandidate, hxs]
  rw [if_neg hrej, ht0, hfn, if_neg one_ne_zero]


theorem nearest_candidate_next (N : ℕ) (hN : 0 < N) (i : ℕ) (hi : i < N) :
    madCandidate N N 0 1 Nearest 1 i ((i : ℤ) + 1) = none := by
  have hNQ : ((N : ℚ)) ≠ 0 := Nat.cast_ne_zero.2 (Nat.pos_iff_ne_zero.1 hN)
  have hc : (0 : ℚ) < (N : ℚ) := by exact_mod_cast hN
  by_cases hlast : i + 1 = N
  · simp only [madCandidate]
    rw [if_pos ⟨rfl, Or.inl (Or.inr (by omega))⟩]
  · have hi1 : i + 1 < N := by omega
    have hxs_eq : xsourceOf N 0 1 ((i : ℤ) + 1) = ((i : ℚ) + 3/2) / (N : ℚ) := by
      rw [xsourceOf]
      push_cast
      field_simp
      ring
    have hxspos : 0 < xsourceOf N 0 1 ((i : ℤ) + 1) := by
      rw [hxs_eq]
      positivity
    have hxslt : xsourceOf N 0 1 ((i : ℤ) + 1) < 1 := by
      rw [hxs_eq, div_lt_one hc]
      have h1 : (i : ℚ) + 2 ≤ (N : ℚ) := by exact_mod_cast hi1
      linarith
    have hrej : ¬(Nearest.rejectExternalSamples = true ∧
        ((((i : ℤ) + 1) < 0 ∨ (N : ℤ) ≤ ((i : ℤ) + 1)) ∨
          (xsourceOf N 0 1 ((i : ℤ) + 1) < 0 ∨ 1 ≤ xsourceOf N 0 1 ((i : ℤ) + 1)))) := by
      rintro ⟨-, (h | h) | (h | h)⟩
      · omega
      · omega
      · exact absurd h (not_lt.2 (le_of_lt hxspos))
      · exact absurd h (not_le.2 hxslt)
    have hdiff : |xsourceOf N 0 1 ((i : ℤ) + 1) - xtargetOf N i| = 1 / (N : ℚ) := by
      have h1 : xsourceOf N 0 1 ((i : ℤ) + 1) - xtargetOf N i = 1 / (N : ℚ) := by
        rw [hxs_eq, nearest_xtarget_eq N hN i, div_sub_div_same]
        norm_num
      rw [h1]
      exact abs_of_pos (by positivity)
    have hmul : domainScaleOf N N 0 1 1 * (1 / (N : ℚ)) = 1 := by
      rw [nearest_domainScale]
      field_simp
    have hfn1 : Nearest.fn 1 = 0 := by
      norm_num [Nearest, Box]
    simp only [madCandidate]
    rw [if_neg hrej, hdiff, hmul, hfn1, if_pos rfl]

theorem nearest_rawForTarget (N : ℕ) (hN : 0 < N) (i : ℕ) (hi : i < N) :
    rawForTarget N N 0 1 Nearest 1 i = [⟨i, (i : ℤ), 1⟩] := by
  rw [rawForTarget, nearest_sourceScan N hN]
  simp only [List.filterMap_cons, List.filterMap_nil,
    nearest_candidate_self N hN i hi, nearest_candidate_next N hN i hi]

theorem nearest_madForTarget (N : ℕ) (hN : 0 < N) (i : ℕ) (hi : i < N) :
    madForTarget N N 0 1 Nearest 1 i = [⟨i, (i : ℤ), 1⟩] := by
  rw [madForTarget, nearest_rawForTarget N hN i hi]
  simp only [madNormalize, List.map_cons, List.map_nil, List.sum_cons, List.sum_nil]
  norm_num

theorem nearest_program (N : ℕ) (hN : 0 < N) :
    generateMadProgram N N 0 1 Nearest 1
      = (List.range N).flatMap (fun i => [⟨i, (i : ℤ), 1⟩]) := by
  rw [generateMadProgram]
  exact List.flatMap_congr (fun i hi => nearest_madForTarget N hN i (List.mem_range.1 hi))


theorem flatMap_singleton_eq_map (l : List ℕ) (f : ℕ → MadInstruction) :
    l.flatMap (fun x => [f x]) = l.map f := by
  induction l with
  | nil => rfl
  | cons a t ih => simp only [List.flatMap_cons, List.map_cons, List.singleton_append, ih]

theorem execRowAdd_identity (N : ℕ) (row : List ℚ) (hlen : row.length = N) :
    execRowAdd ((List.range N).map (fun i => (⟨i, (i : ℤ), 1⟩ : MadInstruction)))
      N row = row := by
  rw [execRowAdd, List.foldl_map]
  show (List.range N).foldl
      (fun buf i => buf.set i (buf.getD i 0 + getIdx row (i : ℤ) * 1))
      (List.replicate N 0) = row
  suffices h : ∀ k, k ≤ N → (List.range k).foldl
      (fun buf i => buf.set i (buf.getD i 0 + getIdx row (i : ℤ) * 1))
      (List.replicate N 0) = row.take k ++ List.replicate (N - k) 0 by
    have hfin := h N le_rfl
    rw [hfin, Nat.sub_self, ← hlen, List.take_length]
    simp
  intro k hk
  induction k with
  | zero => simp
  | succ n ih =>
    have hnN : n < N := by omega
    rw [List.range_succ, List.foldl_append, ih (by omega)]
    simp only [List.foldl_cons, List.foldl_nil]
    have hlt : (row.take n).length = n := by
      rw [List.length_take]
      omega
    have hgd : (row.take n ++ List.replicate (N - n) 0).getD n 0 = 0 := by
      rw [List.getD_append_right _ _ _ _ (by omega : (row.take n).length ≤ n), hlt,
        Nat.sub_self]
      cases hrep : N - n with
      | zero => rfl
      | succ m => rw [List.replicate_succ]; rfl
    have hgetIdx : getIdx row ((n : ℕ) : ℤ) * 1 = row.getD n 0 := by
      simp [getIdx]
    rw [hgd, hgetIdx, zero_add]
    rw [List.set_append_right _ _ (by omega : (row.take n).length ≤ n), hlt, Nat.sub_self]
    obtain ⟨m, hm⟩ : ∃ m, N - n = m + 1 := ⟨N - n - 1, by omega⟩
    rw [hm, List.replicate_succ, List.set_cons_zero]
    have hm2 : N - (n + 1) = m := by omega
    rw [hm2, List.take_succ]
    have hsome : row[n]? = some (row.getD n 0) := by
      rw [List.getElem?_eq_getElem (by omega), List.getD_eq_getElem _ _ (by omega)]
    rw [hsome]
    simp

end ImageSamplerModel

open ImageSamplerModel

/-- Claim C2, corrected (the amended claim): every kernel of the registry
other than Nearest returns exactly 0 for any distance t at or beyond its
bounding radius. Nearest is excluded: its bounding radius is 0 while its
weight function is the Box function, which is 1 at distance 0. -/
theorem kernels_vanish_beyond_radius (P : LibmParams) (K : FilterFn)
    (hK : K ∈ [Box, Gaussian P, Hermite, Mitchell, Lanczos P]) (t : ℚ)
    (ht0 : 0 ≤ t) (ht : K.boundingRadius ≤ t) : K.fn t = 0 := by
  simp only [List.mem_cons, List.mem_singleton, List.not_mem_nil, or_false] at hK
  rcases hK with rfl | rfl | rfl | rfl | rfl <;>
    simp only [Box, Gaussian, Hermite, Mitchell, Lanczos] at ht ⊢
  · rw [if_neg (by linarith)]
  · rw [if_pos (by linarith)]
  · rw [if_pos (by linarith)]
  · rw [if_pos (by linarith)]
  · rw [if_pos (by linarith)]

/-- Witness for the amended claim C2, evaluated at the Box kernel and
distance 5. -/
theorem kernels_vanish_beyond_radius_witness : Box.fn 5 = 0 :=
  kernels_vanish_beyond_radius dummyLibm Box (by simp) 5 (by norm_num)
    (by norm_num [Box])

/-- Counterexample to claim C2 as stated: the Nearest kernel belongs to the
registry, the distance 0 is nonnegative and at least its bounding radius 0,
and yet its weight function returns 1 rather than 0 there. -/
theorem nearest_nonzero_at_radius :
    Nearest.boundingRadius ≤ (0 : ℚ) ∧ (0 : ℚ) ≤ 0 ∧ Nearest.fn 0 ≠ 0 := by
  refine ⟨by norm_num [Nearest], le_refl 0, ?_⟩
  norm_num [Nearest, Box]

/-- Claim C3, corrected (the amended claim): for each target index i the
candidate source indices scanned by the generator are exactly the integers
in the closed interval from the toward-zero truncation of
(xtarget - filterBounds) * S up to the ceiling of
(xtarget + filterBounds) * S; the lower endpoint coincides with the floor
stated by the original claim whenever its argument is nonnegative. -/
theorem sourceScan_interval (T S : ℕ) (l r : ℚ) (K : FilterFn) (rm : ℚ)
    (i : ℕ) (k : ℤ) :
    (k ∈ sourceScan T S l r K rm i ↔
      truncToZero ((xtargetOf T i - filterBoundsOf T S l r K rm) * (S : ℚ)) ≤ k ∧
      k ≤ ⌈(xtargetOf T i + filterBoundsOf T S l r K rm) * (S : ℚ)⌉) ∧
    (0 ≤ (xtargetOf T i - filterBoundsOf T S l r K rm) * (S : ℚ) →
      sourceLower T S l r K rm i =
        ⌊(xtargetOf T i - filterBoundsOf T S l r K rm) * (S : ℚ)⌋) := by
  constructor
  · exact mem_intRange
  · intro h
    exact truncToZero_eq_floor h

/-- Witness for the amended claim C3: at T = S = 1 with the Box kernel the
index 0 lies in the scan, via the interval characterization. -/
theorem sourceScan_interval_witness : (0 : ℤ) ∈ sourceScan 1 1 0 1 Box 1 0 := by
  have e1 : (xtargetOf 1 0 - filterBoundsOf 1 1 0 1 Box 1) * ((1 : ℕ) : ℚ) = -1/2 := by
    norm_num [xtargetOf, filterBoundsOf, domainScaleOf, fnsourceOf, Box]
  have e2 : (xtargetOf 1 0 + filterBoundsOf 1 1 0 1 Box 1) * ((1 : ℕ) : ℚ) = 3/2 := by
    norm_num [xtargetOf, filterBoundsOf, domainScaleOf, fnsourceOf, Box]
  refine (sourceScan_interval 1 1 0 1 Box 1 0 0).1.mpr ⟨?_, ?_⟩
  · rw [e1, truncToZero_neg_eq (x := -1/2) (z := 0) (by norm_num) (by norm_num) (by norm_num)]
  · rw [e2, rceil_eq (x := 3/2) (z := 2) (by norm_num) (by norm_num)]
    omega

/-- Counterexample to claim C3 as stated: resampling 2 samples to 2 targets
over the full range with the Box kernel, the first target has
(xtarget - filterBounds) * S = -7/2, whose floor -4 lies inside the claimed
closed interval, yet the generator never scans source index -4 (the C++
int32_t cast truncates -7/2 toward zero, to -3). -/
theorem sourceScan_missing_floor_index :
    ⌊(xtargetOf 2 0 - filterBoundsOf 2 2 0 1 Box 1) * ((2 : ℕ) : ℚ)⌋ ≤ (-4 : ℤ) ∧
    (-4 : ℤ) ≤ ⌈(xtargetOf 2 0 + filterBoundsOf 2 2 0 1 Box 1) * ((2 : ℕ) : ℚ)⌉ ∧
    (-4 : ℤ) ∉ sourceScan 2 2 0 1 Box 1 0 := by
  have e1 : (xtargetOf 2 0 - filterBoundsOf 2 2 0 1 Box 1) * ((2 : ℕ) : ℚ) = -7/2 := by
    norm_num [xtargetOf, filterBoundsOf, domainScaleOf, fnsourceOf, Box]
  have e2 : (xtargetOf 2 0 + filterBoundsOf 2 2 0 1 Box 1) * ((2 : ℕ) : ℚ) = 9/2 := by
    norm_num [xtargetOf, filterBoundsOf, domainScaleOf, fnsourceOf, Box]
  refine ⟨?_, ?_, ?_⟩
  · rw [e1, rfloor_eq (x := -7/2) (z := -4) (by norm_num) (by norm_num)]
  · rw [e2, rceil_eq (x := 9/2) (z := 5) (by norm_num) (by norm_num)]
    omega
  · intro hmem
    have h := mem_intRange.1 hmem
    rw [sourceLower, e1] at h
    have := truncToZero_neg_eq (x := -7/2) (z := -3) (by norm_num) (by norm_num) (by norm_num)
    omega

/-- Claim C1, confirmed: in weighted-sum mode, for every target index of a
generated 1D MAD program that has at least one instruction, the sum of the
weights of the instructions with that target index is 0 or 1 within the
tolerance 1e-5 (in the exact-arithmetic embedding the sum is exactly 0 in
the cancellation case and exactly 1 after renormalization). -/
theorem generated_target_weight_sums (K : FilterFn) (T S : ℕ) (l r rm : ℚ)
    (t : ℕ)
    (h : (generateMadProgram T S l r K rm).filter (fun m => m.targetIndex = t) ≠ []) :
    |(((generateMadProgram T S l r K rm).filter
        (fun m => m.targetIndex = t)).map (fun m => m.weight)).sum| ≤ 1/100000 ∨
    |(((generateMadProgram T S l r K rm).filter
        (fun m => m.targetIndex = t)).map (fun m => m.weight)).sum - 1| ≤ 1/100000 := by
  rw [filter_generateMadProgram] at h ⊢
  by_cases ht : t < T
  · rw [if_pos ht] at h ⊢
    rcases madForTarget_sum T S l r K rm t with hs | hs
    · rw [hs]
      norm_num
    · rw [hs]
      norm_num
  · rw [if_neg ht] at h
    exact absurd rfl h

/-- Witness for claim C1, at the Box kernel with one source and one target
sample over the full range. -/
theorem generated_target_weight_sums_witness :
    (generateMadProgram 1 1 0 1 Box 1).filter (fun m => m.targetIndex = 0) ≠ [] ∧
    (|(((generateMadProgram 1 1 0 1 Box 1).filter
        (fun m => m.targetIndex = 0)).map (fun m => m.weight)).sum| ≤ 1/100000 ∨
     |(((generateMadProgram 1 1 0 1 Box 1).filter
        (fun m => m.targetIndex = 0)).map (fun m => m.weight)).sum - 1| ≤ 1/100000) := by
  have hlo : sourceLower 1 1 0 1 Box 1 0 = 0 := by
    have e : (xtargetOf 1 0 - filterBoundsOf 1 1 0 1 Box 1) * ((1 : ℕ) : ℚ) = -1/2 := by
      norm_num [xtargetOf, filterBoundsOf, domainScaleOf, fnsourceOf, Box]
    rw [sourceLower, e]
    exact truncToZero_neg_eq (x := -1/2) (z := 0) (by norm_num) (by norm_num) (by norm_num)
  have hhi : sourceUpper 1 1 0 1 Box 1 0 = 2 := by
    have e : (xtargetOf 1 0 + filterBoundsOf 1 1 0 1 Box 1) * ((1 : ℕ) : ℚ) = 3/2 := by
      norm_num [xtargetOf, filterBoundsOf, domainScaleOf, fnsourceOf, Box]
    rw [sourceUpper, e]
    exact rceil_eq (x := 3/2) (z := 2) (by norm_num) (by norm_num)
  have hscan : sourceScan 1 1 0 1 Box 1 0 = [0, 1, 2] := by
    rw [sourceScan, hlo, hhi]
    decide
  have hraw : rawForTarget 1 1 0 1 Box 1 0 = [⟨0, 0, 1⟩] := by
    rw [rawForTarget, hscan]
    simp only [List.filterMap_cons, madCandidate]
    norm_num [xsourceOf, domainScaleOf, fnsourceOf, xtargetOf, Box, abs_lt, abs_le,
      abs_eq_zero]
  have hne : (generateMadProgram 1 1 0 1 Box 1).filter (fun m => m.targetIndex = 0) ≠ [] := by
    rw [filter_generateMadProgram, if_pos (by norm_num), madForTarget, hraw]
    simp only [madNormalize, List.map_cons, List.map_nil, List.sum_cons, List.sum_nil]
    norm_num
  exact ⟨hne, generated_target_weight_sums Box 1 1 0 1 1 0 hne⟩

/-- Claim C5, corrected (the amended claim): whenever the kernel takes no
negative values (true of every registry kernel except Mitchell), a target
index whose accumulated weight sum over its candidate scan equals 0 has no
instructions in the generated program. With a kernel taking negative
values, positive and negative weights can cancel to a zero sum while the
instructions remain, unnormalized. -/
theorem zero_sum_nonneg_kernel_no_instructions (T S : ℕ) (l r : ℚ)
    (K : FilterFn) (rm : ℚ) (t : ℕ) (hpos : ∀ x, 0 ≤ K.fn x)
    (hsum : ((rawForTarget T S l r K rm t).map (fun m => m.weight)).sum = 0) :
    (generateMadProgram T S l r K rm).filter (fun m => m.targetIndex = t) = [] := by
  have hraw : rawForTarget T S l r K rm t = [] := by
    by_contra hne
    have hpos' : ∀ w ∈ (rawForTarget T S l r K rm t).map (fun m => m.weight), 0 < w := by
      intro w hw
      obtain ⟨m, hm, rfl⟩ := List.mem_map.1 hw
      obtain ⟨-, hw0, ⟨x, hx⟩, -⟩ := mem_rawForTarget hm
      rw [hx] at hw0 ⊢
      exact lt_of_le_of_ne (hpos x) (Ne.symm hw0)
    have hlt := List.sum_pos _ hpos' (by simpa using hne)
    rw [hsum] at hlt
    exact absurd hlt (lt_irrefl 0)
  rw [filter_generateMadProgram]
  split_ifs
  · rw [madForTarget, hraw]
    rfl
  · rfl

/-- Witness for the amended claim C5: resampling 1 source sample to 2
targets over the sub-range \x5b0, 1/2) with the Box kernel, target 1 sees no
valid contributor (its only candidate has sub-range coordinate 1, outside
the range), its weight sum is 0, and the program has no instruction for
it. -/
theorem zero_sum_nonneg_kernel_no_instructions_witness :
    ((rawForTarget 2 1 0 (1/2) Box 1 1).map (fun m => m.weight)).sum = 0 ∧
    (generateMadProgram 2 1 0 (1/2) Box 1).filter (fun m => m.targetIndex = 1) = [] := by
  have hlo : sourceLower 2 1 0 (1/2) Box 1 1 = 0 := by
    have e : (xtargetOf 2 1 - filterBoundsOf 2 1 0 (1/2) Box 1) * ((1 : ℕ) : ℚ) = 1/4 := by
      norm_num [xtargetOf, filterBoundsOf, domainScaleOf, fnsourceOf, Box]
    rw [sourceLower, e]
    exact truncToZero_nonneg_eq (x := 1/4) (z := 0) (by norm_num) (by norm_num) (by norm_num)
  have hhi : sourceUpper 2 1 0 (1/2) Box 1 1 = 2 := by
    have e : (xtargetOf 2 1 + filterBoundsOf 2 1 0 (1/2) Box 1) * ((1 : ℕ) : ℚ) = 5/4 := by
      norm_num [xtargetOf, filterBoundsOf, domainScaleOf, fnsourceOf, Box]
    rw [sourceUpper, e]
    exact rceil_eq (x := 5/4) (z := 2) (by norm_num) (by norm_num)
  have hscan : sourceScan 2 1 0 (1/2) Box 1 1 = [0, 1, 2] := by
    rw [sourceScan, hlo, hhi]
    decide
  have hraw : rawForTarget 2 1 0 (1/2) Box 1 1 = [] := by
    rw [rawForTarget, hscan]
    simp only [List.filterMap_cons, madCandidate]
    norm_num [xsourceOf, domainScaleOf, fnsourceOf, xtargetOf, Box, abs_lt, abs_le,
      abs_eq_zero]
  have hsum : ((rawForTarget 2 1 0 (1/2) Box 1 1).map (fun m => m.weight)).sum = 0 := by
    rw [hraw]
    rfl
  refine ⟨hsum, ?_⟩
  refine zero_sum_nonneg_kernel_no_instructions 2 1 0 (1/2) Box 1 1 ?_ hsum
  intro x
  rw [Box]
  dsimp only
  split_ifs <;> norm_num

/-- Counterexample to claim C5 as stated: with a kernel taking negative
values, the accumulated weight sum for target 0 over its candidate scan is
0 (the three appended weights -1, 2, -1 cancel), yet the generated program
keeps all three instructions with target index 0. -/
theorem zero_sum_with_instructions_remaining :
    ((rawForTarget 1 3 0 1 cancelKernel 1 0).map (fun m => m.weight)).sum = 0 ∧
    (generateMadProgram 1 3 0 1 cancelKernel 1).filter (fun m => m.targetIndex = 0) ≠ [] := by
  have hlo : sourceLower 1 3 0 1 cancelKernel 1 0 = -1 := by
    have e : (xtargetOf 1 0 - filterBoundsOf 1 3 0 1 cancelKernel 1) * ((3 : ℕ) : ℚ) = -3/2 := by
      norm_num [xtargetOf, filterBoundsOf, domainScaleOf, fnsourceOf, cancelKernel]
    rw [sourceLower, e]
    exact truncToZero_neg_eq (x := -3/2) (z := -1) (by norm_num) (by norm_num) (by norm_num)
  have hhi : sourceUpper 1 3 0 1 cancelKernel 1 0 = 5 := by
    have e : (xtargetOf 1 0 + filterBoundsOf 1 3 0 1 cancelKernel 1) * ((3 : ℕ) : ℚ) = 9/2 := by
      norm_num [xtargetOf, filterBoundsOf, domainScaleOf, fnsourceOf, cancelKernel]
    rw [sourceUpper, e]
    exact rceil_eq (x := 9/2) (z := 5) (by norm_num) (by norm_num)
  have hscan : sourceScan 1 3 0 1 cancelKernel 1 0 = [-1, 0, 1, 2, 3, 4, 5] := by
    rw [sourceScan, hlo, hhi]
    decide
  have hraw : rawForTarget 1 3 0 1 cancelKernel 1 0 = [⟨0, 0, -1⟩, ⟨0, 1, 2⟩, ⟨0, 2, -1⟩] := by
    rw [rawForTarget, hscan]
    simp only [List.filterMap_cons, madCandidate]
    norm_num [xsourceOf, domainScaleOf, fnsourceOf, xtargetOf, cancelKernel, abs_lt,
      abs_le, abs_eq_zero]
  constructor
  · rw [hraw]
    norm_num
  · rw [filter_generateMadProgram, if_pos (by norm_num), madForTarget, hraw]
    simp only [madNormalize, List.map_cons, List.map_nil, List.sum_cons, List.sum_nil]
    norm_num
    exact List.cons_ne_nil _ _

/-- Claim C4, corrected (the amended claim): in minimum-reduction mode the
1D resample pre-fills every target position with the largest finite float
value (std numeric_limits float max, not plus infinity) and produces, at
every row and every target position, the minimum of that prefill and the
source samples read by the instructions targeting the position; the
instruction weights play no role (they do not occur in the right-hand
side). -/
theorem minimum_mode_is_weightless_min_fold (P : LibmParams)
    (src : LinearImage) (tw : ℕ) (l r rm : ℚ) :
    resampleImage1D P src tw .MINIMUM l r rm
      = .ok ⟨tw, src.height, src.channels,
          src.rows.map (fun row => (List.range (tw * src.channels)).map (fun j =>
            (((expandMadProgram src.channels
                (generateMadProgram tw src.width l r Box rm)).filter
                (fun m => m.targetIndex = j)).map
              (fun m => getIdx row m.sourceIndex)).foldl min floatMax))⟩ := by
  have h1 : resampleImage1D P src tw .MINIMUM l r rm
      = .ok ⟨tw, src.height, src.channels,
          src.rows.map (execRowMin (expandMadProgram src.channels
            (generateMadProgram tw src.width l r Box rm)) (tw * src.channels))⟩ := rfl
  rw [h1]
  have h2 : src.rows.map (execRowMin (expandMadProgram src.channels
        (generateMadProgram tw src.width l r Box rm)) (tw * src.channels))
      = src.rows.map (fun row => (List.range (tw * src.channels)).map (fun j =>
          (((expandMadProgram src.channels
              (generateMadProgram tw src.width l r Box rm)).filter
              (fun m => m.targetIndex = j)).map
            (fun m => getIdx row m.sourceIndex)).foldl min floatMax)) :=
    List.map_congr_left (fun row _ => execRowMin_char _ _ row)
  rw [h2]

/-- Counterexample to claim C4 as stated: the executor pre-fills with the
largest finite float value, not plus infinity; already on an empty program
over one target position the produced row disagrees with the row the spec
text describes (floatMax against the top element). -/
theorem minimum_prefill_not_infinity :
    (execRowMin [] 1 []).map (fun q => (q : WithTop ℚ)) ≠ specMinRow [] 1 [] := by
  intro h
  have h' : ((floatMax : ℚ) : WithTop ℚ) = ⊤ := by
    simpa [execRowMin, specMinRow] using h
  exact WithTop.coe_ne_top h'

/-- Claim C7, confirmed: a 1D resample called with the unresolved default
filter kind behaves exactly as if called with Mitchell when the target
width exceeds the source width and with Lanczos otherwise; the kernel
dispatcher treats the unresolved kind as a fatal contract violation, and no
1D resample call, whatever its filter argument, ever surfaces that
violation (the unresolved kind never reaches kernel evaluation). -/
theorem default_filter_resolution (P : LibmParams) (src : LinearImage)
    (tw : ℕ) (l r rm : ℚ) :
    resampleImage1D P src tw .DEFAULT l r rm
      = resampleImage1D P src tw
          (if src.width < tw then Filter.MITCHELL else Filter.LANCZOS) l r rm
    ∧ createFilterFunction P .DEFAULT = .error .unresolvedFilter
    ∧ ∀ f : Filter, resampleImage1D P src tw f l r rm ≠ .error .unresolvedFilter := by
  refine ⟨?_, rfl, ?_⟩
  · by_cases hm : src.width < tw
    · simp only [resampleImage1D, reduceIte, reduceCtorEq, ite_self, hm,
        if_true, if_false, ite_true, ite_false]
    · simp only [resampleImage1D, reduceIte, reduceCtorEq, ite_self, hm,
        if_true, if_false, ite_true, ite_false]
  · intro f hcontr
    have := resampleImage1D_error_badChannel hcontr
    exact absurd this (by simp)

/-- Claim C8, confirmed: the 2D resample fails with the
not-implemented precondition exactly when one of the four boundary modes of
the sampler configuration differs from exclude; the check runs before any
sampling, and when all four modes are exclude no boundary precondition can
surface from the passes. -/
theorem boundary_precondition_iff (P : LibmParams) (src : LinearImage)
    (w h : ℕ) (s : ImageSampler) :
    resampleImage P src w h s = .error .notImplemented
      ↔ ¬ (s.east = Boundary.EXCLUDE ∧ s.north = Boundary.EXCLUDE ∧
            s.west = Boundary.EXCLUDE ∧ s.south = Boundary.EXCLUDE) := by
  constructor
  · intro hres hex
    rw [resampleImage, if_pos hex] at hres
    cases h1 : resampleImage1D P src w s.horizontalFilter s.left s.right
        s.filterRadiusMultiplier with
    | error e =>
      simp only [h1, Except.error.injEq] at hres
      have hbc := resampleImage1D_error_badChannel h1
      rw [hres] at hbc
      exact absurd hbc (by simp)
    | ok h1img =>
      simp only [h1] at hres
      cases h2 : resampleImage1D P (transposeImage h1img) h s.verticalFilter
          s.top s.bottom s.filterRadiusMultiplier with
      | error e =>
        simp only [h2, Except.error.injEq] at hres
        have hbc := resampleImage1D_error_badChannel h2
        rw [hres] at hbc
        exact absurd hbc (by simp)
      | ok h2img =>
        simp only [h2, reduceCtorEq] at hres
  · intro hbad
    rw [resampleImage, if_neg hbad]

/-- Claim C9, corrected (the amended claim): with all four boundary modes
set to exclude, and provided the normals post-pass is only requested on a
3-channel source (otherwise its own fatal precondition aborts the call
before an image is returned), the 2D resample returns an image whose width
and height are exactly the requested ones and whose channel count is the
channel count of the source. -/
theorem resample2D_shape (P : LibmParams) (src : LinearImage) (w h : ℕ)
    (s : ImageSampler)
    (hb : s.east = Boundary.EXCLUDE ∧ s.north = Boundary.EXCLUDE ∧
          s.west = Boundary.EXCLUDE ∧ s.south = Boundary.EXCLUDE)
    (hh : s.horizontalFilter = Filter.GAUSSIAN_NORMALS → src.channels = 3)
    (hv : s.verticalFilter = Filter.GAUSSIAN_NORMALS → src.channels = 3) :
    ∃ out, resampleImage P src w h s = .ok out ∧
      out.width = w ∧ out.height = h ∧ out.channels = src.channels := by
  obtain ⟨o1, h1⟩ := resampleImage1D_ok_of P src w s.horizontalFilter s.left
    s.right s.filterRadiusMultiplier hh
  obtain ⟨s1w, s1h, s1c⟩ := resampleImage1D_shape h1
  have htc : (transposeImage o1).channels = src.channels := by
    simpa [transposeImage] using s1c
  obtain ⟨o2, h2⟩ := resampleImage1D_ok_of P (transposeImage o1) h
    s.verticalFilter s.top s.bottom s.filterRadiusMultiplier
    (fun hg => by rw [htc]; exact hv hg)
  obtain ⟨s2w, s2h, s2c⟩ := resampleImage1D_shape h2
  refine ⟨transposeImage o2, ?_, ?_, ?_, ?_⟩
  · rw [resampleImage, if_pos hb]
    simp only [h1, h2]
  · show o2.height = w
    rw [s2h]
    show o1.width = w
    exact s1w
  · show o2.width = h
    exact s2w
  · show o2.channels = src.channels
    rw [s2c]
    exact htc

/-- Witness for the amended claim C9: a 1-by-1 single-channel image resampled
to 2 by 3 with the Box filter on both axes and all boundary modes exclude. -/
theorem resample2D_shape_witness :
    ∃ out, resampleImage dummyLibm ⟨1, 1, 1, [[0]]⟩ 2 3
        ⟨Filter.BOX, Filter.BOX, 1, 0, 0, 1, 1, Boundary.EXCLUDE,
          Boundary.EXCLUDE, Boundary.EXCLUDE, Boundary.EXCLUDE⟩ = .ok out ∧
      out.width = 2 ∧ out.height = 3 ∧
      out.channels = (⟨1, 1, 1, [[0]]⟩ : LinearImage).channels :=
  resample2D_shape dummyLibm ⟨1, 1, 1, [[0]]⟩ 2 3 _
    ⟨rfl, rfl, rfl, rfl⟩ (fun hg => absurd hg (by simp)) (fun hg => absurd hg (by simp))

/-- Claim C10, confirmed: every instruction of the program a 1D resample
pass builds (the generator output expanded across C channels, with the
kernel obtained from the dispatcher, all of whose kernels reject external
samples) has a source index in [0, S*C) and a target index in [0, T*C); the
target index is a natural number, so its lower bound is implicit. Hence the
per-row executor indexing stays inside the source and target row buffers. -/
theorem program_indices_in_bounds (P : LibmParams) (f : Filter) (K : FilterFn)
    (hK : createFilterFunction P f = .ok K) (C T S : ℕ) (l r rm : ℚ)
    (m : MadInstruction)
    (hm : m ∈ expandMadProgram C (generateMadProgram T S l r K rm)) :
    0 ≤ m.sourceIndex ∧ m.sourceIndex < (S : ℤ) * (C : ℤ) ∧
      m.targetIndex < T * C := by
  have hrej : K.rejectExternalSamples = true := createFilterFunction_reject hK
  have hgen : ∀ q ∈ generateMadProgram T S l r K rm,
      0 ≤ q.sourceIndex ∧ q.sourceIndex < (S : ℤ) ∧ q.targetIndex < T := by
    intro q hq
    obtain ⟨i, hi, hqi⟩ := List.mem_flatMap.1 hq
    obtain ⟨hs0, hs1⟩ := mem_madForTarget_bounds hqi hrej
    have ht := mem_madForTarget_targetIndex hqi
    exact ⟨hs0, hs1, ht ▸ List.mem_range.1 hi⟩
  rw [expandMadProgram] at hm
  split_ifs at hm with hC
  · obtain ⟨hs0, hs1, ht⟩ := hgen m hm
    subst hC
    simpa using ⟨hs0, hs1, ht⟩
  · obtain ⟨q, hq, hmq⟩ := List.mem_flatMap.1 hm
    obtain ⟨j, hj, rfl⟩ := List.mem_map.1 hmq
    obtain ⟨hs0, hs1, ht⟩ := hgen q hq
    have hj' := List.mem_range.1 hj
    refine ⟨by positivity, ?_, ?_⟩
    · show q.sourceIndex * (C : ℤ) + (j : ℤ) < (S : ℤ) * (C : ℤ)
      have h4 : q.sourceIndex * (C : ℤ) + (j : ℤ) < (q.sourceIndex + 1) * (C : ℤ) := by
        rw [add_mul, one_mul]
        omega
      have h5 : (q.sourceIndex + 1) * (C : ℤ) ≤ (S : ℤ) * (C : ℤ) :=
        mul_le_mul_of_nonneg_right (by omega) (by positivity)
      omega
    · show q.targetIndex * C + j < T * C
      have h4 : q.targetIndex * C + j < (q.targetIndex + 1) * C := by
        rw [add_mul, one_mul]
        omega
      have h5 : (q.targetIndex + 1) * C ≤ T * C := Nat.mul_le_mul_right C ht
      omega

/-- Witness for claim C10: the Box kernel obtained from the dispatcher, one
channel, one source and one target sample, and the single instruction of
the built program. -/
theorem program_indices_in_bounds_witness :
    0 ≤ (⟨0, 0, 1⟩ : MadInstruction).sourceIndex ∧
    (⟨0, 0, 1⟩ : MadInstruction).sourceIndex < ((1 : ℕ) : ℤ) * ((1 : ℕ) : ℤ) ∧
    (⟨0, 0, 1⟩ : MadInstruction).targetIndex < 1 * 1 :=
  program_indices_in_bounds dummyLibm .BOX Box rfl 1 1 1 0 1 1 ⟨0, 0, 1⟩
    (by rw [expandMadProgram, if_pos rfl, generate_box11]; exact List.mem_singleton.2 rfl)

/-- Claim C6, confirmed: a 1D resample of an N-sample single-channel row
(for any number of rows) to N targets with the Nearest filter, left 0,
right 1 and radius multiplier 1 returns the input image unchanged; in the
exact-arithmetic embedding the identity is exact, hence within any floating
tolerance. -/
theorem nearest_identity (P : LibmParams) (N : ℕ) (src : LinearImage)
    (hN : 0 < N) (hw : src.width = N) (hc : src.channels = 1)
    (hrows : ∀ row ∈ src.rows, row.length = N) :
    resampleImage1D P src N .NEAREST 0 1 1 = .ok src := by
  obtain ⟨w, h, c, rows⟩ := src
  simp only at hw hc hrows
  subst hw
  subst hc
  have hprog : expandMadProgram 1 (generateMadProgram w w 0 1 Nearest 1)
      = (List.range w).map (fun i => (⟨i, (i : ℤ), 1⟩ : MadInstruction)) := by
    rw [expandMadProgram, if_pos rfl, nearest_program w hN,
      flatMap_singleton_eq_map]
  have hred : resampleImage1D P ⟨w, h, 1, rows⟩ w .NEAREST 0 1 1
      = .ok ⟨w, h, 1, rows.map (execRowAdd (expandMadProgram 1
          (generateMadProgram w w 0 1 Nearest 1)) (w * 1))⟩ := rfl
  have hrowsmap : rows.map (execRowAdd (expandMadProgram 1
      (generateMadProgram w w 0 1 Nearest 1)) (w * 1)) = rows := by
    have hpt : ∀ row ∈ rows, execRowAdd (expandMadProgram 1
        (generateMadProgram w w 0 1 Nearest 1)) (w * 1) row = id row := by
      intro row hr
      rw [hprog, Nat.mul_one]
      exact execRowAdd_identity w row (hrows row hr)
    rw [List.map_congr_left hpt, List.map_id]
  rw [hred, hrowsmap]

/-- Witness for claim C6: the two-sample row (3, 5) resampled to 2 targets
with the Nearest filter is returned unchanged. -/
theorem nearest_identity_witness :
    resampleImage1D dummyLibm ⟨2, 1, 1, [[3, 5]]⟩ 2 .NEAREST 0 1 1
      = .ok ⟨2, 1, 1, [[3, 5]]⟩ :=
  nearest_identity dummyLibm 2 ⟨2, 1, 1, [[3, 5]]⟩ (by norm_num) rfl rfl
    (by
      intro row hr
      simp only [List.mem_singleton] at hr
      subst hr
      rfl)

/-- Counterexample to claim C9 as stated: with all four boundary modes set
to exclude but the horizontal filter set to the Gaussian normals variant on
a single-channel source, the 2D resample aborts in the normalize post-pass
(3-channel precondition) and returns no image at all, so it cannot return
an image of the requested dimensions. -/
theorem normals_channel_mismatch_aborts :
    resampleImage dummyLibm ⟨1, 1, 1, [[0]]⟩ 1 1
      ⟨Filter.GAUSSIAN_NORMALS, Filter.BOX, 1, 0, 0, 1, 1, Boundary.EXCLUDE,
        Boundary.EXCLUDE, Boundary.EXCLUDE, Boundary.EXCLUDE⟩
      = .error .badChannelCount := rfl
